import Mathlib

/-!
Verification of the VCF reader/writer binding layer.

Shallow embedding of `deepvariant/util/io/vcf.py`: the option wiring of
`NativeVcfReader.__init__` and `NativeVcfWriter.__init__`, the extension set
used by the dispatching `VcfReader`/`VcfWriter`, and a model of the native
VCF record parser/serializer (which lives in a wrapped native library and is
modelled from the specification where noted).
-/

namespace Vcf

/-- The two index modes from `index_pb2` that `vcf.py` selects between. -/
inductive IndexMode where
  | INDEX_BASED_ON_FILENAME
  | DONT_USE_INDEX
  deriving DecidableEq, Repr

/-- `vcf_pb2.OptionalVariantFieldsToParse`: proto message whose boolean fields
all default to false. -/
structure OptionalVariantFieldsToParse where
  exclude_genotype_quality : Bool := false
  exclude_genotype_likelihood : Bool := false
  deriving DecidableEq, Repr

/-- `vcf_pb2.VcfReaderOptions` as constructed by `NativeVcfReader.__init__`. -/
structure VcfReaderOptions where
  index_mode : IndexMode
  desired_format_entries : OptionalVariantFieldsToParse
  deriving DecidableEq, Repr

/-- The body of `NativeVcfReader.__init__` (vcf.py lines 73-89): starts from
`INDEX_BASED_ON_FILENAME`, switches to `DONT_USE_INDEX` when `use_index` is
false; starts from a default `OptionalVariantFieldsToParse` and sets both
`exclude_genotype_quality` and `exclude_genotype_likelihood` to true when
`include_likelihoods` is false. -/
def nativeVcfReaderOptions (use_index : Bool) (include_likelihoods : Bool) :
    VcfReaderOptions :=
  let index_mode :=
    if !use_index then IndexMode.DONT_USE_INDEX
    else IndexMode.INDEX_BASED_ON_FILENAME
  let fields0 : OptionalVariantFieldsToParse := {}
  let desired_vcf_fields :=
    if !include_likelihoods then
      { fields0 with
          exclude_genotype_quality := true
          exclude_genotype_likelihood := true }
    else fields0
  { index_mode := index_mode, desired_format_entries := desired_vcf_fields }

/-- Default of the `use_index` keyword argument of `NativeVcfReader.__init__`. -/
def default_use_index : Bool := true

/-- Default of the `include_likelihoods` keyword argument of
`NativeVcfReader.__init__`. -/
def default_include_likelihoods : Bool := false

/-- Default of the `round_qualities` keyword argument of
`NativeVcfWriter.__init__`. -/
def default_round_qualities : Bool := false

/-- `_VCF_EXTENSIONS = frozenset(['.vcf'])` (vcf.py line 62). -/
def VCF_EXTENSIONS : List String := [".vcf"]

/-- `VcfReader._get_extensions` (vcf.py lines 108-109). -/
def VcfReader_get_extensions : List String := VCF_EXTENSIONS

/-- `VcfWriter._get_extensions` (vcf.py lines 155-156). -/
def VcfWriter_get_extensions : List String := VCF_EXTENSIONS

/-- The dot-extensions of a path: every dot-separated component after the
first, with the dot reattached (e.g. `"a.vcf.gz"` has `[".vcf", ".gz"]`). -/
def pathExtensions (path : String) : List String :=
  ((path.splitOn ".").drop 1).map (fun s => "." ++ s)

/-- Modelled from the spec: the dispatching reader/writer base classes
(`DispatchingGenomicsReader`/`Writer`) are not part of this repository slice;
per the spec and the module docstring, native VCF-text mode is selected
exactly when the path contains one of the registered extensions as an
extension, and the generic record-container (TFRecord) mode otherwise. -/
def usesVcfExtension (path : String) (exts : List String) : Bool :=
  (pathExtensions path).any (fun e => exts.contains e)

/-- The two concrete modes the dispatching layer selects between. -/
inductive DispatchMode where
  | nativeVcf
  | tfrecord
  deriving DecidableEq, Repr

/-- Modelled from the spec: mode selection of the dispatching `VcfReader`,
using the extension set returned by `VcfReader._get_extensions`. -/
def readerDispatchMode (path : String) : DispatchMode :=
  if usesVcfExtension path VcfReader_get_extensions then DispatchMode.nativeVcf
  else DispatchMode.tfrecord

/-- Modelled from the spec: mode selection of the dispatching `VcfWriter`,
using the extension set returned by `VcfWriter._get_extensions`. -/
def writerDispatchMode (path : String) : DispatchMode :=
  if usesVcfExtension path VcfWriter_get_extensions then DispatchMode.nativeVcf
  else DispatchMode.tfrecord

/-- A run of characters: the representation of VCF text tokens and lines in
this development. -/
abbrev Tok := List Char

/-- `variants_pb2.VcfHeader`: header metadata, all fields defaulting to empty
(a freshly constructed proto message). Contigs, FILTER/INFO/FORMAT
declarations and unstructured lines are kept as opaque tokens; sample names
give the canonical per-sample column order. -/
structure VcfHeader where
  contigs : List Tok := []
  filters : List Tok := []
  infos : List Tok := []
  formats : List Tok := []
  sample_names : List Tok := []
  extras : List Tok := []
  deriving DecidableEq, Repr

/-- A freshly constructed `variants_pb2.VcfHeader()` with every field empty. -/
def emptyVcfHeader : VcfHeader := {}

/-- `vcf_pb2.VcfWriterOptions` as constructed by `NativeVcfWriter.__init__`:
its only field used here is `round_qual_values`. -/
structure VcfWriterOptions where
  round_qual_values : Bool := false
  deriving DecidableEq, Repr

/-- A genotype per the spec data model: an ordered sequence of allele indices
(`none` is the no-call "."), with one phasing flag per separator position. -/
structure Genotype where
  first : Option Nat
  rest : List (Bool × Option Nat)
  deriving DecidableEq, Repr

/-- One per-sample genotype call: the reserved genotype field plus the values
of the remaining FORMAT keys, positionally; each value is multi-valued. -/
structure VariantCall where
  genotype : Genotype
  fields : List (List Tok)
  deriving DecidableEq, Repr

/-- An INFO entry: key with an optional multi-value; `none` is a flag. -/
structure InfoEntry where
  key : Tok
  val : Option (List Tok)
  deriving DecidableEq, Repr

/-- The structured Variant record per the spec data model.  Scalar leaves the
schema types generically are kept as opaque tokens; the 1-based position is a
number; missing ALT/QUAL/FILTER/INFO states are `[]`/`none`. -/
structure Variant where
  chrom : Tok
  pos : Nat
  ids : Tok
  refb : Tok
  alts : List Tok
  qual : Option Tok
  filterNames : List Tok
  info : List InfoEntry
  fmt : List Tok
  calls : List VariantCall
  deriving DecidableEq, Repr

/-- The state of a `NativeVcfWriter` after `__init__`: the header and the
`VcfWriterOptions` are fixed at construction; `written` records the protos
passed to `write`. -/
structure NativeVcfWriterState where
  header : VcfHeader
  writer_options : VcfWriterOptions
  written : List Variant := []
  deriving DecidableEq, Repr

/-- `NativeVcfWriter.__init__` (vcf.py lines 125-143): a `None` header is
replaced by a fresh `variants_pb2.VcfHeader()`; the options carry
`round_qual_values=round_qualities`. -/
def NativeVcfWriter_init (header : Option VcfHeader) (round_qualities : Bool) :
    NativeVcfWriterState :=
  let h := match header with
    | none => emptyVcfHeader
    | some h0 => h0
  { header := h
    writer_options := { round_qual_values := round_qualities }
    written := [] }

/-- `NativeVcfWriter.write` (vcf.py lines 145-146): forwards the proto to the
underlying writer; the header and options fixed at construction are untouched. -/
def NativeVcfWriter_write (w : NativeVcfWriterState) (v : Variant) :
    NativeVcfWriterState :=
  { w with written := w.written ++ [v] }

/-- Modelled from the spec: the native writer's QUAL rounding policy, applied
per `VcfWriterOptions.round_qual_values` (the native `vcf_writer` library is
not part of this repository slice).  When on, the quality is rounded to one
decimal place; when off it is passed through at full precision. -/
def writeQualValue (opts : VcfWriterOptions) (q : ℚ) : ℚ :=
  if opts.round_qual_values then ((round (q * 10) : ℤ) : ℚ) / 10 else q

/-- The state of a `NativeVcfReader` after `__init__`: the underlying native
reader is abstracted as its parsed header together with the record sequence
of the file. -/
structure NativeVcfReaderState where
  options : VcfReaderOptions
  header : VcfHeader
  records : List Variant
  deriving DecidableEq, Repr

/-- `NativeVcfReader.__init__` (vcf.py lines 73-91): builds the options from
the two keyword arguments, opens the underlying reader (abstracted as the
pair header/records) and stores `self.header = self._reader.header`. -/
def NativeVcfReader_init (underlying : VcfHeader × List Variant)
    (use_index : Bool) (include_likelihoods : Bool) : NativeVcfReaderState :=
  { options := nativeVcfReaderOptions use_index include_likelihoods
    header := underlying.1
    records := underlying.2 }

/-- `NativeVcfReader.iterate` (vcf.py lines 95-96): yields the records of the
underlying reader; the reader state is not modified. -/
def NativeVcfReader_iterate (r : NativeVcfReaderState) :
    List Variant × NativeVcfReaderState :=
  (r.records, r)

/-- A genomic query region. -/
structure Region where
  reference_name : Tok
  start : Nat
  stop : Nat
  deriving DecidableEq, Repr

/-- Error raised when a region query is attempted without an index. -/
inductive ConfigErr where
  | noIndex
  deriving DecidableEq, Repr

/-- Modelled from the spec: `NativeVcfReader.query` (vcf.py lines 98-99)
forwards to the native reader, which needs an index: without one the query
fails at query time; with one it yields the overlapping records.  The reader
state is not modified. -/
def NativeVcfReader_query (r : NativeVcfReaderState) (reg : Region) :
    Except ConfigErr (List Variant) × NativeVcfReaderState :=
  match r.options.index_mode with
  | IndexMode.DONT_USE_INDEX => (Except.error ConfigErr.noIndex, r)
  | IndexMode.INDEX_BASED_ON_FILENAME =>
      (Except.ok (r.records.filter fun v =>
        decide (v.chrom = reg.reference_name) &&
        decide (reg.start ≤ v.pos) && decide (v.pos < reg.stop)), r)

/-! ## Text-level machinery for the native parser/serializer model

The native VCF parser and serializer live in the wrapped `vcf_reader` /
`vcf_writer` native library, which is not part of this repository slice; the
definitions below are modelled from the specification of the record grammar:
tab-delimited columns, INFO split on `;` then `=` per key with `,` between
multiple values, per-sample columns split on `:` with values positional on
the FORMAT keys, genotypes split on `/` or `|` with per-separator phasing,
and `.` as the distinct missing token. -/

/-- Split a run of characters on a separator character; always returns at
least one (possibly empty) piece. -/
def splitOnC (c : Char) : List Char → List (List Char)
  | [] => [[]]
  | x :: xs =>
    if x = c then [] :: splitOnC c xs
    else
      match splitOnC c xs with
      | [] => [[x]]
      | y :: ys => (x :: y) :: ys

/-- Join pieces with a separator character (inverse of `splitOnC`). -/
def joinC (c : Char) : List (List Char) → List Char
  | [] => []
  | [t] => t
  | t :: ts => t ++ c :: joinC c ts

/-- `t` holds no occurrence of the character `c`. -/
def noC (c : Char) (t : Tok) : Bool :=
  t.all fun x => decide (x ≠ c)

/-- Decimal digits of a number, least significant first. -/
def toDigitsRev (n : Nat) : List Nat :=
  if h : n = 0 then []
  else n % 10 :: toDigitsRev (n / 10)
decreasing_by exact Nat.div_lt_self (Nat.pos_of_ne_zero h) (by norm_num)

/-- The value of a digit list, least significant first. -/
def ofDigitsRev : List Nat → Nat
  | [] => 0
  | d :: ds => d + 10 * ofDigitsRev ds

/-- The character of a decimal digit. -/
def digChar : Nat → Char
  | 0 => '0'
  | 1 => '1'
  | 2 => '2'
  | 3 => '3'
  | 4 => '4'
  | 5 => '5'
  | 6 => '6'
  | 7 => '7'
  | 8 => '8'
  | _ => '9'

/-- Whether a character is a decimal digit. -/
def isDigitC (c : Char) : Bool :=
  decide (48 ≤ c.toNat) && decide (c.toNat ≤ 57)

/-- The digit value of a character. -/
def digVal (c : Char) : Nat := c.toNat - 48

/-- Print a number in decimal. -/
def natToTok (n : Nat) : Tok :=
  if n = 0 then ['0'] else ((toDigitsRev n).map digChar).reverse

/-- Parse a decimal numeral: all characters must be digits and the token must
be nonempty. -/
def parseNatTok (t : Tok) : Option Nat :=
  if !t.isEmpty && t.all isDigitC then
    some (t.foldl (fun a c => 10 * a + digVal c) 0)
  else none

/-- Serialize one allele index; the no-call is `.`. -/
def formatAllele : Option Nat → Tok
  | none => ['.']
  | some n => natToTok n

/-- Parse one allele index; `.` is the no-call. -/
def parseAllele (t : Tok) : Option (Option Nat) :=
  if t = ['.'] then some none
  else
    match parseNatTok t with
    | none => none
    | some n => some (some n)

/-- Serialize the tail of a genotype: one separator (per-position phasing)
then one allele, repeatedly. -/
def formatGTRest : List (Bool × Option Nat) → Tok
  | [] => []
  | (ph, a) :: rs => (if ph then '|' else '/') :: (formatAllele a ++ formatGTRest rs)

/-- Serialize a genotype: alleles joined by `/` (unphased) or `|` (phased)
at each junction. -/
def formatGenotype (g : Genotype) : Tok :=
  formatAllele g.first ++ formatGTRest g.rest

/-- Split a genotype token at `/` and `|`, recording which separator stood at
each junction (`true` for `|`). -/
def splitGT : List Char → Tok × List (Bool × Tok)
  | [] => ([], [])
  | x :: xs =>
    let p := splitGT xs
    if x = '/' then ([], (false, p.1) :: p.2)
    else if x = '|' then ([], (true, p.1) :: p.2)
    else (x :: p.1, p.2)

/-- Parse the split tail of a genotype token. -/
def parseGTRest : List (Bool × Tok) → Option (List (Bool × Option Nat))
  | [] => some []
  | (ph, t) :: rs =>
    match parseAllele t, parseGTRest rs with
    | some a, some tl => some ((ph, a) :: tl)
    | _, _ => none

/-- Parse a genotype token: split on `/`/`|`, each piece an allele index or
the no-call `.`, phasing recorded per separator position. -/
def parseGenotype (t : Tok) : Option Genotype :=
  match parseAllele (splitGT t).1, parseGTRest (splitGT t).2 with
  | some a, some tl => some { first := a, rest := tl }
  | _, _ => none

/-- Serialize an INFO entry: a flag is the bare key, otherwise
`key=v1,v2,...`. -/
def formatInfoEntry (e : InfoEntry) : Tok :=
  match e.val with
  | none => e.key
  | some vs => e.key ++ '=' :: joinC ',' vs

/-- Parse an INFO entry: split at the first `=`; no `=` means a flag; the
value part splits on `,` into the multi-value. -/
def parseInfoEntry (t : Tok) : InfoEntry :=
  match splitOnC '=' t with
  | [] => { key := t, val := none }
  | [k] => { key := k, val := none }
  | k :: r1 :: rs => { key := k, val := some (splitOnC ',' (joinC '=' (r1 :: rs))) }

/-- Serialize a list-valued column where the empty list is the missing `.`. -/
def formatListCol (sep : Char) (ls : List Tok) : Tok :=
  if ls = [] then ['.'] else joinC sep ls

/-- Parse a list-valued column where `.` is the missing empty list. -/
def parseListCol (sep : Char) (t : Tok) : List Tok :=
  if t = ['.'] then [] else splitOnC sep t

/-- Serialize one per-sample column: the genotype first, then the remaining
FORMAT values (each multi-value joined by `,`), all joined by `:`. -/
def formatCall (c : VariantCall) : Tok :=
  joinC ':' (formatGenotype c.genotype :: c.fields.map (joinC ','))

/-- Per-record serialization errors. -/
inductive SerErr where
  | sampleCountMismatch
  deriving DecidableEq, Repr

/-- Per-record parse errors. -/
inductive ParseErr where
  | badColumns
  | badPosition
  | badFormatCol
  | badGenotype
  | badSample
  deriving DecidableEq, Repr

/-- Effectful map over `Except`, failing at the first error. -/
def mapExcept (f : α → Except ε β) : List α → Except ε (List β)
  | [] => Except.ok []
  | a :: l =>
    match f a, mapExcept f l with
    | Except.ok b, Except.ok bs => Except.ok (b :: bs)
    | Except.error e, _ => Except.error e
    | _, Except.error e => Except.error e

/-- Serialize the QUAL column: the missing quality is `.`. -/
def formatQualCol : Option Tok → Tok
  | none => ['.']
  | some t => t

/-- Parse the QUAL column: `.` is the missing quality. -/
def parseQualCol (t : Tok) : Option Tok :=
  if t = ['.'] then none else some t

/-- Serialize the INFO column: entries joined by `;`, the empty set is `.`. -/
def formatInfoCol (info : List InfoEntry) : Tok :=
  if info = [] then ['.'] else joinC ';' (info.map formatInfoEntry)

/-- Parse the INFO column: `.` is the empty set, otherwise entries split `;`. -/
def parseInfoCol (t : Tok) : List InfoEntry :=
  if t = ['.'] then [] else (splitOnC ';' t).map parseInfoEntry

/-- The eight fixed columns of a record, in canonical order:
CHROM, POS, ID, REF, ALT, QUAL, FILTER, INFO. -/
def fixedCols (v : Variant) : List Tok :=
  [v.chrom, natToTok v.pos, v.ids, v.refb,
   formatListCol ',' v.alts, formatQualCol v.qual,
   formatListCol ';' v.filterNames, formatInfoCol v.info]

/-- Modelled from the spec: `format_record` of the native serializer.  Emits
the eight fixed columns (CHROM, POS, ID, REF, ALT, QUAL, FILTER, INFO), then,
when the header declares samples, the FORMAT column (the reserved `GT` key
first) and one column per sample; a Variant whose sample count disagrees with
the header's sample list is a serialization error. -/
def formatRecord (H : VcfHeader) (v : Variant) : Except SerErr Tok :=
  if v.calls.length ≠ H.sample_names.length then
    Except.error SerErr.sampleCountMismatch
  else if H.sample_names.isEmpty then
    Except.ok (joinC '\t' (fixedCols v))
  else
    Except.ok (joinC '\t'
      (fixedCols v ++ (joinC ':' (['G', 'T'] :: v.fmt) :: v.calls.map formatCall)))

/-- Parse one per-sample column against the number of non-genotype FORMAT
keys of the record. -/
def parseCall (nf : Nat) (scol : Tok) : Except ParseErr VariantCall :=
  match splitOnC ':' scol with
  | [] => Except.error ParseErr.badSample
  | gtT :: ftoks =>
    if ftoks.length ≠ nf then Except.error ParseErr.badSample
    else
      match parseGenotype gtT with
      | none => Except.error ParseErr.badGenotype
      | some g => Except.ok { genotype := g, fields := ftoks.map (splitOnC ',') }

/-- Modelled from the spec: `parse_record` of the native parser.  Splits the
tab-delimited line into the eight fixed columns plus FORMAT/per-sample
columns, checks the column count against the header's sample list (a
mismatch is a `ParseErr`), decodes POS as a number, `.` as the missing
state of ALT/QUAL/FILTER/INFO, INFO entries on `;`/`=`/`,`, and per-sample
columns on `:` positionally against the record's FORMAT keys. -/
def parseRecord (H : VcfHeader) (line : Tok) : Except ParseErr Variant :=
  match splitOnC '\t' line with
  | chromT :: posT :: idT :: refT :: altT :: qualT :: filtT :: infoT :: rest =>
    match parseNatTok posT with
    | none => Except.error ParseErr.badPosition
    | some pos =>
      let alts := parseListCol ',' altT
      let qual := parseQualCol qualT
      let filterNames := parseListCol ';' filtT
      let info := parseInfoCol infoT
      match rest with
      | [] =>
        if H.sample_names.isEmpty then
          Except.ok
            { chrom := chromT, pos := pos, ids := idT, refb := refT,
              alts := alts, qual := qual, filterNames := filterNames,
              info := info, fmt := [], calls := [] }
        else Except.error ParseErr.badColumns
      | fcol :: scols =>
        if H.sample_names.isEmpty then Except.error ParseErr.badColumns
        else if scols.length ≠ H.sample_names.length then
          Except.error ParseErr.badColumns
        else
          match splitOnC ':' fcol with
          | [] => Except.error ParseErr.badFormatCol
          | gtKey :: fkeys =>
            if gtKey ≠ ['G', 'T'] then Except.error ParseErr.badFormatCol
            else
              match mapExcept (parseCall fkeys.length) scols with
              | Except.error e => Except.error e
              | Except.ok calls =>
                Except.ok
                  { chrom := chromT, pos := pos, ids := idT, refb := refT,
                    alts := alts, qual := qual, filterNames := filterNames,
                    info := info, fmt := fkeys, calls := calls }
  | _ => Except.error ParseErr.badColumns

/-- Well-formedness of a token standing in a `sep`-separated list column. -/
def wfSepTok (sep : Char) (t : Tok) : Bool :=
  noC '\t' t && (noC sep t && decide (t ≠ ['.']))

/-- Well-formedness of one value of a FORMAT field in a sample column. -/
def wfCallValue (t : Tok) : Bool :=
  noC '\t' t && (noC ':' t && noC ',' t)

/-- Well-formedness of one value of an INFO field. -/
def wfInfoVal (t : Tok) : Bool :=
  noC '\t' t && (noC ';' t && noC ',' t)

/-- Well-formedness of an INFO entry: the key holds none of the reserved
separators and is not the missing token; a present value is nonempty with
well-formed values. -/
def wfInfoEntry (e : InfoEntry) : Bool :=
  noC '\t' e.key && (noC ';' e.key && (noC '=' e.key && (decide (e.key ≠ ['.']) &&
  (match e.val with
   | none => true
   | some vs => !vs.isEmpty && vs.all wfInfoVal))))

/-- Well-formedness of a FORMAT key. -/
def wfFmtKey (k : Tok) : Bool :=
  noC '\t' k && noC ':' k

/-- Well-formedness of a genotype call against the number of non-genotype
FORMAT keys. -/
def wfCall (nf : Nat) (c : VariantCall) : Bool :=
  decide (c.fields.length = nf) &&
  c.fields.all fun vs => !vs.isEmpty && vs.all wfCallValue

/-- A Variant the VCF text schema can represent exactly under a header:
tokens avoid the separators of their enclosing context and the missing
token `.` where it would be decoded as missing, the sample count matches
the header, and a sample-less header comes with no FORMAT/sample data. -/
def wfVariant (H : VcfHeader) (v : Variant) : Bool :=
  noC '\t' v.chrom &&
  (noC '\t' v.ids &&
  (noC '\t' v.refb &&
  (v.alts.all (wfSepTok ',') &&
  ((match v.qual with
    | none => true
    | some t => noC '\t' t && decide (t ≠ ['.'])) &&
  (v.filterNames.all (wfSepTok ';') &&
  (v.info.all wfInfoEntry &&
  (v.fmt.all wfFmtKey &&
  (decide (v.calls.length = H.sample_names.length) &&
  (v.calls.all (wfCall v.fmt.length) &&
  (if H.sample_names.isEmpty then v.fmt.isEmpty && v.calls.isEmpty
   else true))))))))))

/-- Error of the combined serialize-then-parse pipeline. -/
inductive VcfErr where
  | ser (e : SerErr)
  | par (e : ParseErr)
  deriving DecidableEq, Repr

/-- Serialize a Variant under a header and parse the produced line back under
the same header. -/
def vcfRoundTrip (H : VcfHeader) (v : Variant) : Except VcfErr Variant :=
  match formatRecord H v with
  | Except.error e => Except.error (VcfErr.ser e)
  | Except.ok line =>
    match parseRecord H line with
    | Except.error e => Except.error (VcfErr.par e)
    | Except.ok v2 => Except.ok v2

/-- The header of the spec's test scenario: one sample `S1`. -/
def scenarioHeader : VcfHeader :=
  { sample_names := [['S', '1']] }

/-- The record of the spec's test scenario:
`chr1  100  .  A  T  30.0  PASS  DP=10  GT  0/1`. -/
def scenarioVariant : Variant :=
  { chrom := ['c', 'h', 'r', '1']
    pos := 100
    ids := ['.']
    refb := ['A']
    alts := [['T']]
    qual := some ['3', '0', '.', '0']
    filterNames := [['P', 'A', 'S', 'S']]
    info := [{ key := ['D', 'P'], val := some [['1', '0']] }]
    fmt := []
    calls := [{ genotype := { first := some 0, rest := [(false, some 1)] },
                fields := [] }] }

/-- The record proto types relevant at the dispatching layer. -/
inductive ProtoKind where
  | variantProto
  | vcfHeaderProto
  | rawBytes
  deriving DecidableEq, Repr

/-- `VcfReader._record_proto` (vcf.py lines 114-115): returns
`variants_pb2.Variant`, the proto type used to decode records in TFRecord
mode. -/
def VcfReader_record_proto : ProtoKind := ProtoKind.variantProto

/-- Modelled from the spec: the native VCF path also exposes records as
`nucleus.genomics.v1.Variant` protocol buffers (module docstring of vcf.py);
the native reader implementation is not part of this repository slice. -/
def nativeVcfRecordKind : ProtoKind := ProtoKind.variantProto

/-- Modelled from the spec: the record type the dispatching reader exposes in
each mode — the native reader's records in VCF mode, records decoded with
`_record_proto` in TFRecord mode. -/
def dispatchRecordKind (m : DispatchMode) : ProtoKind :=
  match m with
  | DispatchMode.nativeVcf => nativeVcfRecordKind
  | DispatchMode.tfrecord => VcfReader_record_proto

end Vcf

namespace Vcf

/-! ## Properties of the text-level machinery -/

theorem noC_iff {c : Char} {t : Tok} : noC c t = true ↔ ∀ x ∈ t, x ≠ c := by
  simp [noC, List.all_eq_true]

theorem splitOnC_ne_nil (c : Char) (l : List Char) : splitOnC c l ≠ [] := by
  cases l with
  | nil => simp [splitOnC]
  | cons x xs =>
    simp only [splitOnC]
    split
    · simp
    · split <;> simp

theorem splitOnC_of_noC {c : Char} {t : Tok} (h : ∀ x ∈ t, x ≠ c) :
    splitOnC c t = [t] := by
  induction t with
  | nil => rfl
  | cons x xs ih =>
    have hx : x ≠ c := h x (by simp)
    have hxs := ih fun y hy => h y (by simp [hy])
    simp [splitOnC, hx, hxs]

theorem splitOnC_append {c : Char} {t l : List Char} (h : ∀ x ∈ t, x ≠ c) :
    splitOnC c (t ++ c :: l) = t :: splitOnC c l := by
  induction t with
  | nil => simp [splitOnC]
  | cons x xs ih =>
    have hx : x ≠ c := h x (by simp)
    have hxs := ih fun y hy => h y (by simp [hy])
    simp [splitOnC, hx, hxs]

theorem joinC_single (c : Char) (t : Tok) : joinC c [t] = t := rfl

theorem joinC_cons2 (c : Char) (t u : Tok) (ts : List Tok) :
    joinC c (t :: u :: ts) = t ++ c :: joinC c (u :: ts) := rfl

theorem splitOnC_joinC {c : Char} {ls : List Tok} (hne : ls ≠ [])
    (h : ∀ t ∈ ls, ∀ x ∈ t, x ≠ c) : splitOnC c (joinC c ls) = ls := by
  induction ls with
  | nil => exact absurd rfl hne
  | cons t ts ih =>
    cases ts with
    | nil => rw [joinC_single]; exact splitOnC_of_noC (h t (by simp))
    | cons u ts' =>
      rw [joinC_cons2, splitOnC_append (h t (by simp))]
      rw [ih (by simp) fun w hw x hx => h w (by simp [hw]) x hx]

theorem joinC_cons_head (c x : Char) (y : Tok) (ys : List Tok) :
    joinC c ((x :: y) :: ys) = x :: joinC c (y :: ys) := by
  cases ys <;> rfl

theorem joinC_splitOnC (c : Char) (l : List Char) :
    joinC c (splitOnC c l) = l := by
  induction l with
  | nil => rfl
  | cons x xs ih =>
    by_cases hx : x = c
    · subst hx
      obtain ⟨y, ys, hr⟩ := List.exists_cons_of_ne_nil (splitOnC_ne_nil x xs)
      have hsp : splitOnC x (x :: xs) = [] :: y :: ys := by
        simp [splitOnC, hr]
      rw [hsp, joinC_cons2, List.nil_append, ← hr, ih]
    · obtain ⟨y, ys, hr⟩ := List.exists_cons_of_ne_nil (splitOnC_ne_nil c xs)
      have hsp : splitOnC c (x :: xs) = (x :: y) :: ys := by
        simp [splitOnC, hx, hr]
      rw [hsp, joinC_cons_head, ← hr, ih]

theorem noC_joinC {c d : Char} {ls : List Tok} (hcd : c ≠ d)
    (h : ∀ t ∈ ls, ∀ x ∈ t, x ≠ d) : ∀ x ∈ joinC c ls, x ≠ d := by
  induction ls with
  | nil => simp [joinC]
  | cons t ts ih =>
    cases ts with
    | nil => simpa [joinC_single] using h t (by simp)
    | cons u ts' =>
      rw [joinC_cons2]
      intro x hx
      rcases List.mem_append.mp hx with hx | hx
      · exact h t (by simp) x hx
      · rcases List.mem_cons.mp hx with rfl | hx
        · exact hcd
        · exact ih (fun w hw => h w (by simp [hw])) x hx

theorem joinC_ne_dot {sep : Char} {ls : List Tok} (hsep : sep ≠ '.')
    (hne : ls ≠ []) (h : ∀ t ∈ ls, t ≠ ['.']) : joinC sep ls ≠ ['.'] := by
  cases ls with
  | nil => exact absurd rfl hne
  | cons t ts =>
    cases ts with
    | nil => rw [joinC_single]; exact h t (by simp)
    | cons u ts' =>
      rw [joinC_cons2]
      intro hh
      have hlen := congrArg List.length hh
      simp only [List.length_append, List.length_cons, List.length_singleton] at hlen
      have ht : t = [] := by
        cases t with
        | nil => rfl
        | cons a l => simp at hlen; omega
      subst ht
      simp only [List.nil_append] at hh
      exact hsep (List.cons_eq_cons.mp hh).1

theorem toDigitsRev_lt (n : Nat) : ∀ d ∈ toDigitsRev n, d < 10 := by
  induction n using Nat.strong_induction_on with
  | _ n ih =>
    by_cases h : n = 0
    · subst h; rw [toDigitsRev]; simp
    · rw [toDigitsRev, dif_neg h]
      intro d hd
      rcases List.mem_cons.mp hd with rfl | hd
      · exact Nat.mod_lt _ (by norm_num)
      · exact ih (n / 10) (Nat.div_lt_self (Nat.pos_of_ne_zero h) (by norm_num)) d hd

theorem toDigitsRev_ne_nil {n : Nat} (h : n ≠ 0) : toDigitsRev n ≠ [] := by
  rw [toDigitsRev, dif_neg h]; simp

theorem ofDigitsRev_toDigitsRev (n : Nat) : ofDigitsRev (toDigitsRev n) = n := by
  induction n using Nat.strong_induction_on with
  | _ n ih =>
    by_cases h : n = 0
    · subst h; rw [toDigitsRev]; simp [ofDigitsRev]
    · rw [toDigitsRev, dif_neg h]
      show n % 10 + 10 * ofDigitsRev (toDigitsRev (n / 10)) = n
      rw [ih (n / 10) (Nat.div_lt_self (Nat.pos_of_ne_zero h) (by norm_num))]
      omega

theorem digVal_digChar {d : Nat} (h : d < 10) : digVal (digChar d) = d := by
  interval_cases d <;> rfl

theorem isDigitC_digChar {d : Nat} (h : d < 10) : isDigitC (digChar d) = true := by
  interval_cases d <;> rfl

theorem natToTok_digits (n : Nat) : ∀ x ∈ natToTok n, isDigitC x = true := by
  unfold natToTok
  by_cases h : n = 0
  · subst h
    intro x hx
    simp at hx
    subst hx; rfl
  · rw [if_neg h]
    intro x hx
    rw [List.mem_reverse] at hx
    obtain ⟨d, hd, rfl⟩ := List.mem_map.mp hx
    exact isDigitC_digChar (toDigitsRev_lt n d hd)

theorem natToTok_ne_nil (n : Nat) : natToTok n ≠ [] := by
  unfold natToTok
  by_cases h : n = 0
  · simp [h]
  · rw [if_neg h]
    simpa using toDigitsRev_ne_nil h

theorem foldr_digVal_digChar {ds : List Nat} (h : ∀ d ∈ ds, d < 10) :
    List.foldr (fun d a => 10 * a + digVal (digChar d)) 0 ds = ofDigitsRev ds := by
  induction ds with
  | nil => rfl
  | cons d ds ih =>
    simp only [List.foldr_cons, ofDigitsRev]
    rw [ih fun x hx => h x (by simp [hx]), digVal_digChar (h d (by simp))]
    omega

theorem parseNatTok_natToTok (n : Nat) : parseNatTok (natToTok n) = some n := by
  have hall : (natToTok n).all isDigitC = true :=
    List.all_eq_true.mpr fun x hx => natToTok_digits n x hx
  have hne : (natToTok n).isEmpty = false := by
    cases hh : natToTok n with
    | nil => exact absurd hh (natToTok_ne_nil n)
    | cons a l => rfl
  unfold parseNatTok
  rw [hne, hall]
  simp only [Bool.not_false, Bool.and_self, if_true, Option.some.injEq]
  by_cases h : n = 0
  · subst h; rfl
  · unfold natToTok
    rw [if_neg h, List.foldl_reverse, List.foldr_map]
    rw [foldr_digVal_digChar (toDigitsRev_lt n)]
    exact ofDigitsRev_toDigitsRev n

theorem formatAllele_chars (a : Option Nat) :
    ∀ x ∈ formatAllele a, isDigitC x = true ∨ x = '.' := by
  cases a with
  | none =>
    intro x hx
    simp only [formatAllele, List.mem_singleton] at hx
    exact Or.inr hx
  | some n => exact fun x hx => Or.inl (natToTok_digits n x hx)

theorem isDigitC_ne {c d : Char} (hc : isDigitC c = true)
    (hd : isDigitC d = false) : c ≠ d := by
  intro h; subst h; rw [hc] at hd; cases hd

theorem formatAllele_ne_sep (a : Option Nat) :
    ∀ x ∈ formatAllele a, x ≠ '/' ∧ x ≠ '|' := by
  intro x hx
  rcases formatAllele_chars a x hx with h | rfl
  · exact ⟨isDigitC_ne h (by rfl), isDigitC_ne h (by rfl)⟩
  · exact ⟨by decide, by decide⟩

theorem formatGTRest_chars (rs : List (Bool × Option Nat)) :
    ∀ x ∈ formatGTRest rs, isDigitC x = true ∨ x = '.' ∨ x = '/' ∨ x = '|' := by
  induction rs with
  | nil => simp [formatGTRest]
  | cons pr rs ih =>
    obtain ⟨ph, b⟩ := pr
    intro x hx
    rw [formatGTRest, List.mem_cons] at hx
    rcases hx with rfl | hx
    · cases ph
      · simp
      · simp
    · rcases List.mem_append.mp hx with hx | hx
      · rcases formatAllele_chars b x hx with h | rfl
        · exact Or.inl h
        · exact Or.inr (Or.inl rfl)
      · exact ih x hx

theorem formatGenotype_chars (g : Genotype) :
    ∀ x ∈ formatGenotype g, x ≠ ':' ∧ x ≠ '\t' := by
  intro x hx
  rcases List.mem_append.mp hx with hx | hx
  · rcases formatAllele_chars g.first x hx with h | rfl
    · exact ⟨isDigitC_ne h (by rfl), isDigitC_ne h (by rfl)⟩
    · exact ⟨by decide, by decide⟩
  · rcases formatGTRest_chars g.rest x hx with h | rfl | rfl | rfl
    · exact ⟨isDigitC_ne h (by rfl), isDigitC_ne h (by rfl)⟩
    · exact ⟨by decide, by decide⟩
    · exact ⟨by decide, by decide⟩
    · exact ⟨by decide, by decide⟩

theorem splitGT_append {t l : List Char} (h : ∀ x ∈ t, x ≠ '/' ∧ x ≠ '|') :
    splitGT (t ++ l) = (t ++ (splitGT l).1, (splitGT l).2) := by
  induction t with
  | nil => simp
  | cons x xs ih =>
    have hx := h x (by simp)
    simp [splitGT, hx.1, hx.2, ih fun y hy => h y (by simp [hy])]

theorem splitGT_of_noSep {t : List Char} (h : ∀ x ∈ t, x ≠ '/' ∧ x ≠ '|') :
    splitGT t = (t, []) := by
  have h2 := splitGT_append (l := []) h
  rw [show splitGT ([] : List Char) = ([], []) from rfl] at h2
  simpa using h2

theorem splitGT_format (a : Option Nat) (rs : List (Bool × Option Nat)) :
    splitGT (formatAllele a ++ formatGTRest rs)
      = (formatAllele a, rs.map fun pr => (pr.1, formatAllele pr.2)) := by
  induction rs generalizing a with
  | nil =>
    rw [show formatGTRest [] = [] from rfl, List.append_nil,
      splitGT_of_noSep (formatAllele_ne_sep a)]
    simp
  | cons pr rs ih =>
    obtain ⟨ph, b⟩ := pr
    rw [show formatGTRest ((ph, b) :: rs)
        = (if ph then '|' else '/') :: (formatAllele b ++ formatGTRest rs) from rfl]
    rw [splitGT_append (formatAllele_ne_sep a)]
    cases ph <;> simp [splitGT, ih b]

theorem parseAllele_format (a : Option Nat) :
    parseAllele (formatAllele a) = some a := by
  cases a with
  | none => rfl
  | some n =>
    have hne : natToTok n ≠ ['.'] := by
      intro hh
      have hd := natToTok_digits n '.' (by rw [hh]; simp)
      exact absurd hd (by decide)
    unfold parseAllele formatAllele
    rw [if_neg hne, parseNatTok_natToTok]

theorem parseGTRest_format (rs : List (Bool × Option Nat)) :
    parseGTRest (rs.map fun pr => (pr.1, formatAllele pr.2)) = some rs := by
  induction rs with
  | nil => rfl
  | cons pr rs ih =>
    obtain ⟨ph, b⟩ := pr
    simp [parseGTRest, parseAllele_format, ih]

theorem parseGenotype_format (g : Genotype) :
    parseGenotype (formatGenotype g) = some g := by
  obtain ⟨a, rs⟩ := g
  unfold parseGenotype formatGenotype
  rw [splitGT_format]
  simp [parseAllele_format, parseGTRest_format]

theorem parseInfoEntry_format {e : InfoEntry} (h : wfInfoEntry e = true) :
    parseInfoEntry (formatInfoEntry e) = e := by
  obtain ⟨k, val⟩ := e
  unfold wfInfoEntry at h
  simp only [Bool.and_eq_true, decide_eq_true_eq] at h
  obtain ⟨-, hsem, heq, hdot, hval⟩ := h
  cases val with
  | none =>
    have hs : splitOnC '=' k = [k] := splitOnC_of_noC (noC_iff.mp heq)
    simp [parseInfoEntry, formatInfoEntry, hs]
  | some vs =>
    simp only [Bool.and_eq_true, Bool.not_eq_true', List.isEmpty_eq_false,
      List.all_eq_true] at hval
    obtain ⟨hvne, hvall⟩ := hval
    have hs : splitOnC '=' (k ++ '=' :: joinC ',' vs)
        = k :: splitOnC '=' (joinC ',' vs) := splitOnC_append (noC_iff.mp heq)
    obtain ⟨r1, rs, hr⟩ :=
      List.exists_cons_of_ne_nil (splitOnC_ne_nil '=' (joinC ',' vs))
    rw [hr] at hs
    have hvals : ∀ t ∈ vs, ∀ x ∈ t, x ≠ ',' := by
      intro t ht
      have := hvall t ht
      rw [wfInfoVal] at this
      simp only [Bool.and_eq_true] at this
      exact noC_iff.mp this.2.2
    simp only [formatInfoEntry, parseInfoEntry, hs]
    rw [← hr, joinC_splitOnC, splitOnC_joinC hvne hvals]

theorem formatInfoEntry_chars {e : InfoEntry} (h : wfInfoEntry e = true) :
    (∀ x ∈ formatInfoEntry e, x ≠ ';' ∧ x ≠ '\t') ∧ formatInfoEntry e ≠ ['.'] := by
  obtain ⟨k, val⟩ := e
  unfold wfInfoEntry at h
  simp only [Bool.and_eq_true, decide_eq_true_eq] at h
  obtain ⟨htab, hsem, heq, hdot, hval⟩ := h
  cases val with
  | none =>
    exact ⟨fun x hx => ⟨noC_iff.mp hsem x hx, noC_iff.mp htab x hx⟩, hdot⟩
  | some vs =>
    simp only [Bool.and_eq_true, Bool.not_eq_true', List.isEmpty_eq_false,
      List.all_eq_true] at hval
    obtain ⟨hvne, hvall⟩ := hval
    have hv1 : ∀ t ∈ vs, ∀ x ∈ t, x ≠ ';' := by
      intro t ht
      have := hvall t ht
      rw [wfInfoVal] at this
      simp only [Bool.and_eq_true] at this
      exact noC_iff.mp this.2.1
    have hv2 : ∀ t ∈ vs, ∀ x ∈ t, x ≠ '\t' := by
      intro t ht
      have := hvall t ht
      rw [wfInfoVal] at this
      simp only [Bool.and_eq_true] at this
      exact noC_iff.mp this.1
    constructor
    · intro x hx
      rw [show formatInfoEntry ⟨k, some vs⟩ = k ++ '=' :: joinC ',' vs from rfl] at hx
      rcases List.mem_append.mp hx with hx | hx
      · exact ⟨noC_iff.mp hsem x hx, noC_iff.mp htab x hx⟩
      · rcases List.mem_cons.mp hx with rfl | hx
        · exact ⟨by decide, by decide⟩
        · exact ⟨noC_joinC (by decide) hv1 x hx, noC_joinC (by decide) hv2 x hx⟩
    · rw [show formatInfoEntry ⟨k, some vs⟩ = k ++ '=' :: joinC ',' vs from rfl]
      cases k with
      | nil =>
        intro hh
        simp only [List.nil_append] at hh
        exact absurd (List.cons_eq_cons.mp hh).1 (by decide)
      | cons a l =>
        intro hh
        rw [List.cons_append] at hh
        have := (List.cons_eq_cons.mp hh).2
        exact absurd this (by simp)

theorem parseListCol_format {sep : Char} {ls : List Tok} (hsep : sep ≠ '.')
    (h : ∀ t ∈ ls, wfSepTok sep t = true) :
    parseListCol sep (formatListCol sep ls) = ls := by
  by_cases hls : ls = []
  · subst hls; simp [formatListCol, parseListCol]
  · have hprops : ∀ t ∈ ls, (∀ x ∈ t, x ≠ sep) ∧ t ≠ ['.'] := by
      intro t ht
      have := h t ht
      rw [wfSepTok] at this
      simp only [Bool.and_eq_true, decide_eq_true_eq] at this
      exact ⟨noC_iff.mp this.2.1, this.2.2⟩
    rw [formatListCol, if_neg hls, parseListCol,
      if_neg (joinC_ne_dot hsep hls fun t ht => (hprops t ht).2)]
    exact splitOnC_joinC hls fun t ht => (hprops t ht).1

theorem noC_formatListCol {sep d : Char} {ls : List Tok} (hd : d ≠ '.')
    (hsepd : sep ≠ d) (h : ∀ t ∈ ls, ∀ x ∈ t, x ≠ d) :
    ∀ x ∈ formatListCol sep ls, x ≠ d := by
  by_cases hls : ls = []
  · subst hls
    intro x hx
    simp [formatListCol] at hx
    subst hx
    exact Ne.symm hd
  · rw [formatListCol, if_neg hls]
    exact noC_joinC hsepd h

theorem map_parse_format_info (info : List InfoEntry)
    (h : ∀ e ∈ info, wfInfoEntry e = true) :
    (info.map formatInfoEntry).map parseInfoEntry = info := by
  induction info with
  | nil => rfl
  | cons e es ih =>
    simp [parseInfoEntry_format (h e (by simp)),
      ih fun x hx => h x (by simp [hx])]

theorem parseInfoCol_format {info : List InfoEntry}
    (h : ∀ e ∈ info, wfInfoEntry e = true) :
    parseInfoCol (formatInfoCol info) = info := by
  by_cases hi : info = []
  · subst hi; simp [formatInfoCol, parseInfoCol]
  · have hmapne : info.map formatInfoEntry ≠ [] := by simpa using hi
    have hchars : ∀ t ∈ info.map formatInfoEntry, ∀ x ∈ t, x ≠ ';' := by
      intro t ht
      obtain ⟨e, he, rfl⟩ := List.mem_map.mp ht
      exact fun x hx => ((formatInfoEntry_chars (h e he)).1 x hx).1
    have hdots : ∀ t ∈ info.map formatInfoEntry, t ≠ ['.'] := by
      intro t ht
      obtain ⟨e, he, rfl⟩ := List.mem_map.mp ht
      exact (formatInfoEntry_chars (h e he)).2
    rw [formatInfoCol, if_neg hi, parseInfoCol,
      if_neg (joinC_ne_dot (by decide) hmapne hdots),
      splitOnC_joinC hmapne hchars]
    exact map_parse_format_info info h

theorem noC_formatInfoCol {info : List InfoEntry}
    (h : ∀ e ∈ info, wfInfoEntry e = true) :
    ∀ x ∈ formatInfoCol info, x ≠ '\t' := by
  by_cases hi : info = []
  · subst hi
    intro x hx
    simp [formatInfoCol] at hx
    subst hx
    decide
  · rw [formatInfoCol, if_neg hi]
    refine noC_joinC (by decide) ?_
    intro t ht
    obtain ⟨e, he, rfl⟩ := List.mem_map.mp ht
    exact fun x hx => ((formatInfoEntry_chars (h e he)).1 x hx).2

theorem wfCall_spread {nf : Nat} {c : VariantCall} (h : wfCall nf c = true) :
    c.fields.length = nf ∧
      ∀ vs ∈ c.fields, vs ≠ [] ∧ ∀ u ∈ vs, wfCallValue u = true := by
  unfold wfCall at h
  simp only [Bool.and_eq_true, decide_eq_true_eq, List.all_eq_true,
    Bool.not_eq_true', List.isEmpty_eq_false] at h
  obtain ⟨hlen, hfs⟩ := h
  exact ⟨hlen, fun vs hvs => ⟨(hfs vs hvs).1, (hfs vs hvs).2⟩⟩

theorem wfCallValue_spread {u : Tok} (h : wfCallValue u = true) :
    (∀ x ∈ u, x ≠ '\t') ∧ (∀ x ∈ u, x ≠ ':') ∧ ∀ x ∈ u, x ≠ ',' := by
  unfold wfCallValue at h
  simp only [Bool.and_eq_true] at h
  exact ⟨noC_iff.mp h.1, noC_iff.mp h.2.1, noC_iff.mp h.2.2⟩

theorem formatCall_pieces_noColon {c : VariantCall}
    (h : ∀ vs ∈ c.fields, vs ≠ [] ∧ ∀ u ∈ vs, wfCallValue u = true) :
    ∀ t ∈ (formatGenotype c.genotype :: c.fields.map (joinC ',')),
      ∀ x ∈ t, x ≠ ':' := by
  intro t ht
  rcases List.mem_cons.mp ht with rfl | ht
  · exact fun x hx => (formatGenotype_chars c.genotype x hx).1
  · obtain ⟨vs, hvs, rfl⟩ := List.mem_map.mp ht
    exact noC_joinC (by decide) fun u hu => (wfCallValue_spread ((h vs hvs).2 u hu)).2.1

theorem parseCall_formatCall {nf : Nat} {c : VariantCall} (h : wfCall nf c = true) :
    parseCall nf (formatCall c) = Except.ok c := by
  obtain ⟨hlen, hfs⟩ := wfCall_spread h
  unfold formatCall parseCall
  rw [splitOnC_joinC (by simp) (formatCall_pieces_noColon hfs)]
  dsimp only
  rw [if_neg (not_not_intro (by rw [List.length_map, hlen])),
    parseGenotype_format]
  dsimp only
  rw [List.map_map]
  have hmap : c.fields.map (fun vs => splitOnC ',' (joinC ',' vs)) = c.fields := by
    rw [List.map_congr_left
      (fun vs hvs => splitOnC_joinC (hfs vs hvs).1
        fun u hu => (wfCallValue_spread ((hfs vs hvs).2 u hu)).2.2)]
    exact List.map_id c.fields
  rw [show ((fun t => splitOnC ',' t) ∘ fun t => joinC ',' t)
      = fun vs => splitOnC ',' (joinC ',' vs) from rfl, hmap]

theorem formatCall_noTab {c : VariantCall}
    (h : ∀ vs ∈ c.fields, vs ≠ [] ∧ ∀ u ∈ vs, wfCallValue u = true) :
    ∀ x ∈ formatCall c, x ≠ '\t' := by
  refine noC_joinC (by decide) ?_
  intro t ht
  rcases List.mem_cons.mp ht with rfl | ht
  · exact fun x hx => (formatGenotype_chars c.genotype x hx).2
  · obtain ⟨vs, hvs, rfl⟩ := List.mem_map.mp ht
    exact noC_joinC (by decide) fun u hu => (wfCallValue_spread ((h vs hvs).2 u hu)).1

theorem mapExcept_map_ok {α β ε : Type} {f : α → Except ε β} {g : β → α}
    {l : List β} (h : ∀ b ∈ l, f (g b) = Except.ok b) :
    mapExcept f (l.map g) = Except.ok l := by
  induction l with
  | nil => rfl
  | cons b bs ih =>
    simp [mapExcept, h b (by simp), ih fun x hx => h x (by simp [hx])]

theorem wfSepTok_spread {sep : Char} {t : Tok} (h : wfSepTok sep t = true) :
    (∀ x ∈ t, x ≠ '\t') ∧ (∀ x ∈ t, x ≠ sep) ∧ t ≠ ['.'] := by
  unfold wfSepTok at h
  simp only [Bool.and_eq_true, decide_eq_true_eq] at h
  exact ⟨noC_iff.mp h.1, noC_iff.mp h.2.1, h.2.2⟩

theorem wfFmtKey_spread {k : Tok} (h : wfFmtKey k = true) :
    (∀ x ∈ k, x ≠ '\t') ∧ ∀ x ∈ k, x ≠ ':' := by
  unfold wfFmtKey at h
  simp only [Bool.and_eq_true] at h
  exact ⟨noC_iff.mp h.1, noC_iff.mp h.2⟩

theorem parseQualCol_format {q : Option Tok} (h : ∀ t, q = some t → t ≠ ['.']) :
    parseQualCol (formatQualCol q) = q := by
  cases q with
  | none => simp [parseQualCol, formatQualCol]
  | some t =>
    rw [show formatQualCol (some t) = t from rfl, parseQualCol, if_neg (h t rfl)]

theorem noTab_formatQualCol {q : Option Tok}
    (h : ∀ t, q = some t → ∀ x ∈ t, x ≠ '\t') :
    ∀ x ∈ formatQualCol q, x ≠ '\t' := by
  cases q with
  | none =>
    intro x hx
    simp only [formatQualCol, List.mem_singleton] at hx
    subst hx; decide
  | some t => exact h t rfl

theorem wfVariant_spread {H : VcfHeader} {v : Variant}
    (h : wfVariant H v = true) :
    (∀ x ∈ v.chrom, x ≠ '\t') ∧
    (∀ x ∈ v.ids, x ≠ '\t') ∧
    (∀ x ∈ v.refb, x ≠ '\t') ∧
    (∀ t ∈ v.alts, wfSepTok ',' t = true) ∧
    (∀ t, v.qual = some t → (∀ x ∈ t, x ≠ '\t') ∧ t ≠ ['.']) ∧
    (∀ t ∈ v.filterNames, wfSepTok ';' t = true) ∧
    (∀ e ∈ v.info, wfInfoEntry e = true) ∧
    (∀ k ∈ v.fmt, wfFmtKey k = true) ∧
    v.calls.length = H.sample_names.length ∧
    (∀ c ∈ v.calls, wfCall v.fmt.length c = true) ∧
    (H.sample_names = [] → v.fmt = [] ∧ v.calls = []) := by
  unfold wfVariant at h
  simp only [Bool.and_eq_true, decide_eq_true_eq, List.all_eq_true] at h
  obtain ⟨h1, h2, h3, h4, h5, h6, h7, h8, h9, h10, h11⟩ := h
  refine ⟨noC_iff.mp h1, noC_iff.mp h2, noC_iff.mp h3, h4, ?_, h6, h7, h8, h9,
    h10, ?_⟩
  · intro t ht
    rw [ht] at h5
    simp only [Bool.and_eq_true, decide_eq_true_eq] at h5
    exact ⟨noC_iff.mp h5.1, h5.2⟩
  · intro hsn
    rw [hsn] at h11
    simpa using h11

theorem fixedCols_noTab {H : VcfHeader} {v : Variant}
    (h : wfVariant H v = true) : ∀ t ∈ fixedCols v, ∀ x ∈ t, x ≠ '\t' := by
  obtain ⟨hchrom, hids, hrefb, halts, hqual, hfilt, hinfo, -, -, -, -⟩ :=
    wfVariant_spread h
  intro t ht
  simp only [fixedCols, List.mem_cons, List.not_mem_nil, or_false] at ht
  rcases ht with rfl | rfl | rfl | rfl | rfl | rfl | rfl | rfl
  · exact hchrom
  · exact fun x hx => isDigitC_ne (natToTok_digits v.pos x hx) (by rfl)
  · exact hids
  · exact hrefb
  · exact noC_formatListCol (by decide) (by decide)
      (fun u hu => (wfSepTok_spread (halts u hu)).1)
  · exact noTab_formatQualCol fun u hu => (hqual u hu).1
  · exact noC_formatListCol (by decide) (by decide)
      (fun u hu => (wfSepTok_spread (hfilt u hu)).1)
  · exact noC_formatInfoCol hinfo

theorem roundTrip_aux {H : VcfHeader} {v : Variant}
    (h : wfVariant H v = true) :
    ∃ line, formatRecord H v = Except.ok line ∧
      parseRecord H line = Except.ok v := by
  obtain ⟨hchrom, hids, hrefb, halts, hqual, hfilt, hinfo, hfmt, hlen, hcalls,
    hempty⟩ := wfVariant_spread h
  have hfx := fixedCols_noTab h
  by_cases hsn : H.sample_names = []
  · obtain ⟨hfmt0, hcalls0⟩ := hempty hsn
    have hse : H.sample_names.isEmpty = true := by rw [hsn]; rfl
    refine ⟨joinC '\t' (fixedCols v), ?_, ?_⟩
    · unfold formatRecord
      rw [if_neg (not_not_intro hlen), if_pos hse]
    · unfold parseRecord
      rw [splitOnC_joinC (by simp [fixedCols]) hfx]
      dsimp only [fixedCols]
      rw [parseNatTok_natToTok]
      dsimp only
      rw [hse, if_pos rfl]
      rw [parseListCol_format (by decide) halts,
        parseQualCol_format (fun t ht => (hqual t ht).2),
        parseListCol_format (by decide) hfilt,
        parseInfoCol_format hinfo]
      obtain ⟨chrom, pos, ids, refb, alts, qual, filterNames, info, fmt,
        calls⟩ := v
      simp only at hfmt0 hcalls0
      rw [hfmt0, hcalls0]
  · have hse : H.sample_names.isEmpty = false := by
      cases hq : H.sample_names with
      | nil => exact absurd hq hsn
      | cons a l => rfl
    have hfcolpieces : ∀ t ∈ (['G', 'T'] :: v.fmt), ∀ x ∈ t, x ≠ ':' := by
      intro t ht
      rcases List.mem_cons.mp ht with rfl | ht
      · intro x hx
        rcases List.mem_cons.mp hx with rfl | hx
        · decide
        · rcases List.mem_singleton.mp hx with rfl
          decide
      · exact (wfFmtKey_spread (hfmt t ht)).2
    have hcols : ∀ t ∈ fixedCols v ++
        (joinC ':' (['G', 'T'] :: v.fmt) :: v.calls.map formatCall),
        ∀ x ∈ t, x ≠ '\t' := by
      intro t ht
      rcases List.mem_append.mp ht with ht | ht
      · exact hfx t ht
      · rcases List.mem_cons.mp ht with rfl | ht
        · refine noC_joinC (by decide) ?_
          intro u hu
          rcases List.mem_cons.mp hu with rfl | hu
          · intro x hx
            rcases List.mem_cons.mp hx with rfl | hx
            · decide
            · rcases List.mem_singleton.mp hx with rfl
              decide
          · exact (wfFmtKey_spread (hfmt u hu)).1
        · obtain ⟨c, hc, rfl⟩ := List.mem_map.mp ht
          exact formatCall_noTab (wfCall_spread (hcalls c hc)).2
    refine ⟨joinC '\t' (fixedCols v ++
      (joinC ':' (['G', 'T'] :: v.fmt) :: v.calls.map formatCall)), ?_, ?_⟩
    · unfold formatRecord
      rw [if_neg (not_not_intro hlen), if_neg (by rw [hse]; exact Bool.false_ne_true)]
    · unfold parseRecord
      rw [splitOnC_joinC (by simp [fixedCols]) hcols]
      dsimp only [fixedCols]
      simp only [List.cons_append, List.nil_append]
      rw [parseNatTok_natToTok]
      dsimp only
      rw [hse, if_neg Bool.false_ne_true]
      rw [if_neg (not_not_intro (by rw [List.length_map, hlen]))]
      rw [splitOnC_joinC (by simp) hfcolpieces]
      dsimp only
      rw [if_neg (not_not_intro rfl)]
      rw [mapExcept_map_ok fun c hc => parseCall_formatCall (hcalls c hc)]
      rw [parseListCol_format (by decide) halts,
        parseQualCol_format (fun t ht => (hqual t ht).2),
        parseListCol_format (by decide) hfilt,
        parseInfoCol_format hinfo]

theorem usesVcfExtension_iff (path : String) :
    usesVcfExtension path VCF_EXTENSIONS = true ↔ ".vcf" ∈ pathExtensions path := by
  unfold usesVcfExtension VCF_EXTENSIONS
  simp [List.any_eq_true]

/-! ## The claims -/

/-- C1: a reader constructed with `include_likelihoods=false` sets both the
genotype-quality and the genotype-likelihood exclusion options of the desired
FORMAT entries, so the parser skips decoding both fields; with
`include_likelihoods=true` neither exclusion is set. -/
theorem claim_C1_likelihood_exclusion :
    ∀ use_index : Bool,
      (nativeVcfReaderOptions use_index false).desired_format_entries
        = { exclude_genotype_quality := true, exclude_genotype_likelihood := true } ∧
      (nativeVcfReaderOptions use_index true).desired_format_entries
        = { exclude_genotype_quality := false, exclude_genotype_likelihood := false } := by
  intro ui
  cases ui <;> exact ⟨rfl, rfl⟩

/-- C2: reader and writer select native VCF-text mode exactly when the path
contains `.vcf` among its extensions, generic record-container (TFRecord)
mode otherwise; and the extension set of both is exactly `{.vcf}`. -/
theorem claim_C2_extension_dispatch :
    (∀ path, readerDispatchMode path = DispatchMode.nativeVcf
        ↔ ".vcf" ∈ pathExtensions path) ∧
    (∀ path, writerDispatchMode path = DispatchMode.nativeVcf
        ↔ ".vcf" ∈ pathExtensions path) ∧
    VcfReader_get_extensions = [".vcf"] ∧
    VcfWriter_get_extensions = [".vcf"] := by
  refine ⟨?_, ?_, rfl, rfl⟩
  · intro path
    unfold readerDispatchMode VcfReader_get_extensions
    by_cases hvc : usesVcfExtension path VCF_EXTENSIONS = true
    · rw [if_pos hvc]
      exact iff_of_true rfl ((usesVcfExtension_iff path).mp hvc)
    · rw [if_neg hvc]
      exact iff_of_false (by simp) fun hm =>
        hvc ((usesVcfExtension_iff path).mpr hm)
  · intro path
    unfold writerDispatchMode VcfWriter_get_extensions
    by_cases hvc : usesVcfExtension path VCF_EXTENSIONS = true
    · rw [if_pos hvc]
      exact iff_of_true rfl ((usesVcfExtension_iff path).mp hvc)
    · rw [if_neg hvc]
      exact iff_of_false (by simp) fun hm =>
        hvc ((usesVcfExtension_iff path).mpr hm)

/-- C3: with `round_qualities=true` the written QUAL value is rounded to one
decimal place (an integer number of tenths); with `round_qualities=false` it
is passed through at full precision; the policy is a single writer-level
option fixed at construction and untouched by `write`. -/
theorem claim_C3_round_qualities :
    (∀ q : ℚ, ∃ n : ℤ,
      writeQualValue { round_qual_values := true } q = (n : ℚ) / 10) ∧
    (∀ q : ℚ, writeQualValue { round_qual_values := false } q = q) ∧
    (∀ (h : Option VcfHeader) (b : Bool),
      (NativeVcfWriter_init h b).writer_options = { round_qual_values := b }) ∧
    (∀ w v2, (NativeVcfWriter_write w v2).writer_options = w.writer_options) := by
  refine ⟨fun q => ⟨round (q * 10), ?_⟩, fun q => rfl, fun h b => ?_, fun w v2 => rfl⟩
  · simp [writeQualValue]
  · cases h <;> rfl

/-- C4: `use_index=true` selects filename-based index discovery
(`INDEX_BASED_ON_FILENAME`), `use_index=false` selects `DONT_USE_INDEX`,
independently of the other option. -/
theorem claim_C4_use_index_wiring :
    ∀ include_likelihoods : Bool,
      (nativeVcfReaderOptions true include_likelihoods).index_mode
        = IndexMode.INDEX_BASED_ON_FILENAME ∧
      (nativeVcfReaderOptions false include_likelihoods).index_mode
        = IndexMode.DONT_USE_INDEX := by
  intro il
  exact ⟨rfl, rfl⟩

/-- C5: for every header and every well-formed Variant (one the VCF text
schema can represent exactly), serializing and re-parsing under the same
header returns the Variant unchanged (full-precision QUAL mode; the lossy
case is exactly the carve-out the claim makes for `round_qualities=true`). -/
theorem claim_C5_roundtrip (H : VcfHeader) (v : Variant)
    (h : wfVariant H v = true) : vcfRoundTrip H v = Except.ok v := by
  obtain ⟨line, hf, hp⟩ := roundTrip_aux h
  unfold vcfRoundTrip
  rw [hf]
  dsimp only
  rw [hp]

/-- C5 witness: the spec's scenario record round-trips under its header. -/
theorem claim_C5_roundtrip_witness :
    wfVariant scenarioHeader scenarioVariant = true ∧
      vcfRoundTrip scenarioHeader scenarioVariant = Except.ok scenarioVariant :=
  ⟨by decide, claim_C5_roundtrip scenarioHeader scenarioVariant (by decide)⟩

/-- C6: a writer's header is the one supplied at construction (or the
explicit empty default) and writing records never changes it. -/
theorem claim_C6_header_fixed :
    (∀ (h : VcfHeader) (b : Bool),
      (NativeVcfWriter_init (some h) b).header = h) ∧
    (∀ w v2, (NativeVcfWriter_write w v2).header = w.header) :=
  ⟨fun _ _ => rfl, fun _ _ => rfl⟩

/-- C7: a reader's header is the underlying parsed header, set at
construction, and neither `iterate` nor `query` changes it. -/
theorem claim_C7_reader_header_immutable :
    (∀ (underlying : VcfHeader × List Variant) (ui il : Bool),
      (NativeVcfReader_init underlying ui il).header = underlying.1) ∧
    (∀ r, (NativeVcfReader_iterate r).2.header = r.header) ∧
    (∀ r reg, (NativeVcfReader_query r reg).2.header = r.header) := by
  refine ⟨fun u ui il => rfl, fun r => rfl, fun r reg => ?_⟩
  unfold NativeVcfReader_query
  cases hm : r.options.index_mode <;> rfl

/-- C8: the dispatching reader exposes records as the Variant proto type in
both modes: the TFRecord mode decodes with `_record_proto` (which is the
Variant proto) and the native VCF mode yields Variant protos as well. -/
theorem claim_C8_uniform_record_type :
    ∀ path, dispatchRecordKind (readerDispatchMode path) = ProtoKind.variantProto ∧
      VcfReader_record_proto = ProtoKind.variantProto ∧
      nativeVcfRecordKind = ProtoKind.variantProto := by
  intro path
  refine ⟨?_, rfl, rfl⟩
  unfold readerDispatchMode
  by_cases hvc : usesVcfExtension path VcfReader_get_extensions = true
  · rw [if_pos hvc]; rfl
  · rw [if_neg hvc]; rfl

/-- C9: the constructor defaults are `use_index=true`,
`include_likelihoods=false` and `round_qualities=false`, so a default reader
uses filename-based index discovery and excludes genotype-quality and
genotype-likelihood decoding, and a default writer keeps full-precision
QUAL. -/
theorem claim_C9_defaults :
    default_use_index = true ∧
    default_include_likelihoods = false ∧
    default_round_qualities = false ∧
    (nativeVcfReaderOptions default_use_index
      default_include_likelihoods).index_mode
        = IndexMode.INDEX_BASED_ON_FILENAME ∧
    (nativeVcfReaderOptions default_use_index
      default_include_likelihoods).desired_format_entries
        = { exclude_genotype_quality := true,
            exclude_genotype_likelihood := true } ∧
    ∀ h : Option VcfHeader,
      (NativeVcfWriter_init h
        default_round_qualities).writer_options.round_qual_values = false := by
  refine ⟨rfl, rfl, rfl, rfl, rfl, fun h => ?_⟩
  cases h <;> rfl

/-- C10: constructing a writer with no header succeeds and installs a fresh
empty default `VcfHeader`. -/
theorem claim_C10_none_header_default :
    ∀ b : Bool, (NativeVcfWriter_init none b).header = emptyVcfHeader :=
  fun _ => rfl

end Vcf
